import Mathlib

/-!
Verification of the smartphone-intelligence-platform data-synchronization
engine against its specification.

The definitions below are a shallow embedding of the Python source:

* `Pool`, `acquire`, `releaseStep`, `getConnectionStep` embed
  `SnowflakeConnectionPool.get_connection` from `backend/main.py`.
* `upsert`, `loadRecords`, `csvBuildRecords`, `chunk`, `csvProcessBatches`,
  `load_company_financials` embed `load_company_financials_to_snowflake`
  from `pipeline/csv_to_snowflake.py` (MERGE-based loader).
* `runInsertBatches`, `load_dataframe_outcome`, `mysqlBuildRecords` embed
  `load_dataframe_to_snowflake` from `pipeline/mysql_to_snowflake.py`
  (INSERT-based loader with per-batch failure isolation).
* `mysqlPipelineExit` embeds the exit-status behaviour of `main` in
  `pipeline/mysql_to_snowflake.py`.
* `save_forecasts` embeds `save_forecasts` from `forecasting/run_forecasts.py`.

External effects (connection creation, the liveness probe, batch execution
against the warehouse) are supplied as oracle parameters recording the
outcome the external system produced; numeric payloads (SQL DOUBLE columns)
are modelled as integers since none of the verified logic computes on them.
-/

namespace SIP

/- ====================================================================
   Connection pool: `SnowflakeConnectionPool` from backend/main.py
   ==================================================================== -/

/-- State of `SnowflakeConnectionPool`: `maxConnections` is
`max_connections`, `created` is `_created` (a Python int, so a `ℤ`),
`idle` is the FIFO contents of `_pool` (front = next to be popped),
`nextId` names the connection `get_snowflake_connection()` would
return next. -/
structure Pool where
  maxConnections : Nat
  created : Int
  idle : List Nat
  nextId : Nat
deriving DecidableEq, Repr

/-- Outcome of the acquisition phase of `get_connection` (lines 46-60):
either a connection is obtained, or `get_snowflake_connection()` raised
(`connError`), or the blocking `self._pool.get(timeout=30)` raised
`queue.Empty` after the timeout (`poolExhausted`, carrying the timeout
in seconds). -/
inductive AcquireResult where
  | got (conn : Nat) (p : Pool)
  | connError (p : Pool)
  | poolExhausted (timeoutSecs : Nat) (p : Pool)
deriving DecidableEq, Repr

/-- Acquisition phase of `get_connection`.  `createOk` records whether
`get_snowflake_connection()` succeeds; `arrival` records a connection
pushed by a concurrent `Release` while the call blocks on
`self._pool.get(timeout=30)` (`none` means nothing arrived and the get
times out with `queue.Empty`). -/
def acquire (p : Pool) (createOk : Bool) (arrival : Option Nat) : AcquireResult :=
  match p.idle with
  | conn :: rest => .got conn { p with idle := rest }
  | [] =>
    if p.created < (p.maxConnections : Int) then
      if createOk then
        .got p.nextId { p with created := p.created + 1, nextId := p.nextId + 1 }
      else
        .connError p
    else
      match arrival with
      | some conn => .got conn p
      | none => .poolExhausted 30 p

/-- Release phase of `get_connection`: the `except` clause (lines 62-71)
followed by the `finally` clause (lines 72-95), for a call that did
obtain a connection.  `bodyOk` records whether the code under `yield`
completed without raising; `probeOk` records whether the liveness probe
(`cursor.execute("SELECT 1")`) in the `finally` block succeeds.  Every
failure path in the source is wrapped in a bare `except`, so release is
a total function on the pool state and never raises to the caller. -/
def releaseStep (p : Pool) (conn : Nat) (bodyOk probeOk : Bool) : Pool :=
  -- except clause: on a body exception, close the connection and decrement
  let p1 := if bodyOk then p else { p with created := p.created - 1 }
  -- finally clause: probe, then return to pool or discard
  if probeOk then
    if p1.idle.length < p1.maxConnections then
      { p1 with idle := p1.idle ++ [conn] }
    else
      -- put_nowait raised Full: close the connection and decrement
      { p1 with created := p1.created - 1 }
  else
    -- probe failed: connection is dead, close and decrement
    { p1 with created := p1.created - 1 }

/-- Per-call outcome oracle for one `get_connection` entry/exit. -/
structure CallEnv where
  createOk : Bool
  arrival : Option Nat
  bodyOk : Bool
  probeOk : Bool
deriving DecidableEq, Repr

/-- One complete `get_connection` entry and exit.  When acquisition fails
(`connError` or `poolExhausted`), `conn` is `None`, so neither the
`except` clause nor the `finally` clause touches the pool. -/
def getConnectionStep (p : Pool) (e : CallEnv) : Pool :=
  match acquire p e.createOk e.arrival with
  | .got conn p' => releaseStep p' conn e.bodyOk e.probeOk
  | .connError p' => p'
  | .poolExhausted _ p' => p'

/-- A sequence of `get_connection` calls. -/
def runCalls (p : Pool) (es : List CallEnv) : Pool :=
  es.foldl getConnectionStep p

/-- Claim C1: on the pool counter invariant `0 ≤ created ≤ capacity`.
The upper bound is preserved, but a single `get_connection` call whose
body raises drives `_created` to `-1`: the `except` clause closes the
connection and decrements `_created`, and then the `finally` clause
probes the same (now closed) connection, the probe fails, and
`_created` is decremented a second time.  Starting from a fresh pool
with `max_connections = 1`, one call that creates a connection and
whose body raises ends with `_created = -1 < 0`. -/
theorem c1_pool_counter_goes_negative :
    (getConnectionStep ⟨1, 0, [], 0⟩ ⟨true, none, false, false⟩).created = -1 ∧
    (runCalls ⟨1, 0, [], 0⟩ [⟨true, none, false, false⟩]).created < 0 := by
  constructor
  · rfl
  · decide

/-- Claim C6: when `created == capacity` and the idle queue is empty (and
no concurrent release feeds the blocking wait), `get_connection` blocks
on `self._pool.get(timeout=30)` for the 30-second timeout and then fails
with `queue.Empty` — the pool-exhausted error kind, distinct from the
connection-creation error kind, leaving the pool unchanged. -/
theorem c6_acquire_times_out_pool_exhausted (p : Pool) (createOk : Bool)
    (hidle : p.idle = []) (hfull : p.created = (p.maxConnections : Int)) :
    acquire p createOk none = .poolExhausted 30 p := by
  unfold acquire
  rw [hidle]
  simp [hfull]

/-- Witness for C6 at a concrete exhausted pool. -/
theorem c6_witness :
    acquire ⟨5, 5, [], 7⟩ true none = .poolExhausted 30 ⟨5, 5, [], 7⟩ :=
  c6_acquire_times_out_pool_exhausted ⟨5, 5, [], 7⟩ true rfl rfl

/-- Claim C7: `releaseStep` is a total function into `Pool` (all probe
and close failures in the source are swallowed by bare `except`
clauses, so release never raises to the caller), and releasing an
unhealthy connection (failed probe) always decrements `created` —
by one, or by two when the body also raised — and leaves the idle
queue unchanged, so the released connection never enters `idle`. -/
theorem c7_release_unhealthy (p : Pool) (conn : Nat) (bodyOk : Bool) :
    (releaseStep p conn bodyOk false).created ≤ p.created - 1 ∧
    (releaseStep p conn bodyOk false).idle = p.idle ∧
    (releaseStep p conn bodyOk false).created =
      (if bodyOk then p.created - 1 else p.created - 2) := by
  unfold releaseStep
  cases bodyOk
  · simp; omega
  · simp

/- ====================================================================
   CSV merge loader: `load_company_financials_to_snowflake`
   from pipeline/csv_to_snowflake.py
   ==================================================================== -/

/-- One DataFrame row of `company_financials.csv` after the uppercase
renaming: each cell may be null (`pd.isna`). -/
structure CsvRow where
  company : Option String
  year : Option Int
  revenue : Option Int
  netIncome : Option Int
deriving DecidableEq, Repr

/-- One record appended to `records` (lines 126-137): COMPANY and YEAR
are known non-null, REVENUE_USD / NET_INCOME_USD may be NULL. -/
structure FinRecord where
  company : String
  year : Int
  revenue : Option Int
  netIncome : Option Int
deriving DecidableEq, Repr

/-- The merge key `(COMPANY, YEAR)` of a record / stored row. -/
def rkey (r : FinRecord) : String × Int := (r.company, r.year)

/-- The non-key fields `(REVENUE_USD, NET_INCOME_USD)`. -/
def rvals (r : FinRecord) : Option Int × Option Int := (r.revenue, r.netIncome)

/-- The `WHEN MATCHED THEN UPDATE` clause: overwrite the target row's non-key
fields with the source record's, leaving the key columns unchanged. -/
def applyVals (row src : FinRecord) : FinRecord :=
  { row with revenue := src.revenue, netIncome := src.netIncome }

/-- The `COMPANY_FINANCIALS` table: its stored rows. -/
abbrev Table := List FinRecord

/-- The effect on the table of one `cursor.execute(merge_query, record)`
(lines 145-156): every target row matching on `(COMPANY, YEAR)` has its
non-key fields updated; if no row matches, the record is inserted. -/
def upsert (t : Table) (r : FinRecord) : Table :=
  if t.any (fun row => decide (rkey row = rkey r)) then
    t.map (fun row => if rkey row = rkey r then applyVals row r else row)
  else
    t ++ [r]

/-- Effect on the table of merging a list of records in order. -/
def loadRecords (t : Table) (rs : List FinRecord) : Table :=
  rs.foldl upsert t

/-- Building `records` from the DataFrame (lines 112-137): `dropna` on
COMPANY and YEAR plus the per-row skip of null keys, i.e. rows missing
either key column are excluded, the rest become records. -/
def csvBuildRecords (rows : List CsvRow) : List FinRecord :=
  rows.filterMap (fun r =>
    match r.company, r.year with
    | some c, some y => some ⟨c, y, r.revenue, r.netIncome⟩
    | _, _ => none)

/-- A CSV row is invalid when COMPANY or YEAR is null. -/
def invalidRow (r : CsvRow) : Prop := r.company = none ∨ r.year = none

instance : DecidablePred invalidRow := fun r => by
  unfold invalidRow; infer_instance

/-- The dropped-row count reported at line 118:
`initial_count - cleaned_count`. -/
def droppedCount (rows : List CsvRow) : Nat :=
  rows.length - (csvBuildRecords rows).length

/-- Structural worker for `chunk`: `fuel` bounds the recursion depth
(any `fuel ≥ l.length` gives the slicing semantics). -/
def chunkAux (bs : Nat) : Nat → List α → List (List α)
  | _, [] => []
  | 0, l => [l]
  | fuel + 1, x :: xs => (x :: xs.take (bs - 1)) :: chunkAux bs fuel (xs.drop (bs - 1))

/-- The `records[i:i+batch_size]` slicing loop (line 162): partition into
consecutive batches preserving input order. -/
def chunk (bs : Nat) (l : List α) : List (List α) :=
  chunkAux bs l.length l

/-- The per-batch merge loop of the CSV loader (lines 162-176): each
record of a batch is merged in order; on a batch error (oracle `errOf`
keyed by `batch_num`, starting at 1) the loader prints and re-raises,
aborting the whole load.  On success it returns the final table and
`total_processed`. -/
def csvProcessBatches (errOf : Nat → Option String) :
    List (List FinRecord) → Table → Nat → Nat → Except String (Table × Nat)
  | [], t, _, total => .ok (t, total)
  | b :: bs, t, batchNum, total =>
    match errOf batchNum with
    | some e => .error e
    | none => csvProcessBatches errOf bs (b.foldl upsert t) (batchNum + 1) (total + b.length)

/-- The body of `load_company_financials_to_snowflake(conn, df, batch_size)`: the
empty-DataFrame and no-valid-records early returns, then the batched
merge loop. -/
def load_company_financials (errOf : Nat → Option String) (t : Table)
    (rows : List CsvRow) (batchSize : Nat) : Except String (Table × Nat) :=
  if rows = [] then .ok (t, 0)
  else
    let records := csvBuildRecords rows
    if records = [] then .ok (t, 0)
    else csvProcessBatches errOf (chunk batchSize records) t 1 0

/-- The last record of `rs` whose key is `k`, in original input order. -/
def lastWith : List FinRecord → String × Int → Option FinRecord
  | [], _ => none
  | r :: rs, k =>
    match lastWith rs k with
    | some r' => some r'
    | none => if rkey r = k then some r else none

/-- Pure update: overwrite the non-key fields of every row with key `k`. -/
def setVal (t : Table) (k : String × Int) (src : FinRecord) : Table :=
  t.map (fun row => if rkey row = k then applyVals row src else row)

/-- The keys of the stored rows, in row order. -/
def keys (t : Table) : List (String × Int) := t.map rkey

theorem rkey_applyVals (row src : FinRecord) : rkey (applyVals row src) = rkey row := rfl

theorem rvals_applyVals (row src : FinRecord) : rvals (applyVals row src) = rvals src := rfl

theorem applyVals_applyVals (row s s' : FinRecord) :
    applyVals (applyVals row s) s' = applyVals row s' := rfl

theorem applyVals_self (row src : FinRecord) (h : rvals row = rvals src) :
    applyVals row src = row := by
  cases row
  simp only [rvals, Prod.mk.injEq] at h
  simp [applyVals, h.1, h.2]

theorem keys_setVal (t : Table) (k : String × Int) (src : FinRecord) :
    keys (setVal t k src) = keys t := by
  unfold keys setVal
  rw [List.map_map]
  refine List.map_congr_left fun row _ => ?_
  by_cases h : rkey row = k <;> simp [h, rkey_applyVals]

theorem keys_upsert_pos (t : Table) (r : FinRecord)
    (h : t.any (fun row => decide (rkey row = rkey r)) = true) :
    keys (upsert t r) = keys t := by
  unfold keys upsert
  rw [if_pos h, List.map_map]
  refine List.map_congr_left fun row _ => ?_
  by_cases hc : rkey row = rkey r <;> simp [hc, rkey_applyVals]

theorem keys_upsert_neg (t : Table) (r : FinRecord)
    (h : t.any (fun row => decide (rkey row = rkey r)) = false) :
    keys (upsert t r) = keys t ++ [rkey r] := by
  unfold keys upsert
  rw [if_neg (by simp [h]), List.map_append]
  rfl

theorem mem_keys_upsert_self (t : Table) (r : FinRecord) :
    rkey r ∈ keys (upsert t r) := by
  cases hany : t.any (fun row => decide (rkey row = rkey r))
  · rw [keys_upsert_neg t r hany]
    simp
  · rw [keys_upsert_pos t r hany]
    rcases List.any_eq_true.mp hany with ⟨row, hmem, hkey⟩
    exact (of_decide_eq_true hkey) ▸ List.mem_map_of_mem rkey hmem

theorem mem_keys_upsert_mono (t : Table) (r : FinRecord) (k : String × Int)
    (h : k ∈ keys t) : k ∈ keys (upsert t r) := by
  cases hany : t.any (fun row => decide (rkey row = rkey r))
  · rw [keys_upsert_neg t r hany]
    exact List.mem_append_left _ h
  · rw [keys_upsert_pos t r hany]
    exact h

theorem mem_keys_loadRecords (rs : List FinRecord) :
    ∀ (t : Table) (k : String × Int), k ∈ keys t → k ∈ keys (loadRecords t rs) := by
  induction rs with
  | nil => intro t k h; exact h
  | cons r rs ih =>
    intro t k h
    exact ih (upsert t r) k (mem_keys_upsert_mono t r k h)

theorem upsert_of_mem (t : Table) (r : FinRecord) (h : rkey r ∈ keys t) :
    upsert t r = setVal t (rkey r) r := by
  unfold upsert setVal
  rcases List.mem_map.mp h with ⟨row, hmem, hkey⟩
  rw [if_pos (List.any_eq_true.mpr ⟨row, hmem, decide_eq_true hkey⟩)]

theorem setVal_of_not_mem (t : Table) (k : String × Int) (src : FinRecord)
    (h : k ∉ keys t) : setVal t k src = t := by
  unfold setVal
  have h' : ∀ row ∈ t, (if rkey row = k then applyVals row src else row) = id row := by
    intro row hrow
    simp only [id]
    refine if_neg fun hc => h ?_
    rw [← hc]
    exact List.mem_map_of_mem rkey hrow
  rw [List.map_congr_left h', List.map_id]

theorem setVal_setVal (t : Table) (k : String × Int) (s s' : FinRecord) :
    setVal (setVal t k s) k s' = setVal t k s' := by
  unfold setVal
  rw [List.map_map]
  refine List.map_congr_left fun row _ => ?_
  by_cases hc : rkey row = k
  · simp [hc, rkey_applyVals, applyVals_applyVals]
  · simp [hc]

theorem setVal_append (t t' : Table) (k : String × Int) (s : FinRecord) :
    setVal (t ++ t') k s = setVal t k s ++ setVal t' k s :=
  List.map_append _ t t'

theorem upsert_setVal_comm (t : Table) (r : FinRecord) (k : String × Int) (s : FinRecord)
    (hk : k ≠ rkey r) : upsert (setVal t k s) r = setVal (upsert t r) k s := by
  have hany : (setVal t k s).any (fun row => decide (rkey row = rkey r))
      = t.any (fun row => decide (rkey row = rkey r)) := by
    unfold setVal
    rw [List.any_map]
    congr 1
    funext row
    by_cases hc : rkey row = k
    · simp [Function.comp, hc, rkey_applyVals]
    · simp [Function.comp, hc]
  unfold upsert
  rw [hany]
  by_cases hcase : t.any (fun row => decide (rkey row = rkey r)) = true
  · rw [if_pos hcase, if_pos hcase]
    unfold setVal
    rw [List.map_map, List.map_map]
    refine List.map_congr_left fun row _ => ?_
    simp only [Function.comp]
    by_cases h1 : rkey row = k
    · have h2 : ¬rkey row = rkey r := fun he => hk (h1 ▸ he)
      simp [h1, h2, rkey_applyVals, hk]
    · by_cases h2 : rkey row = rkey r
      · have hr : rkey r ≠ k := fun h => hk h.symm
        simp [h1, h2, rkey_applyVals, hr]
      · simp [h1, h2]
  · rw [if_neg hcase, if_neg hcase, setVal_append]
    congr 1
    have hr : ¬rkey r = k := fun h => hk h.symm
    simp [setVal, hr]

theorem vals_upsert_self (t : Table) (r : FinRecord) :
    ∀ row ∈ upsert t r, rkey row = rkey r → rvals row = rvals r := by
  intro row hrow hkey
  unfold upsert at hrow
  cases hany : t.any (fun row => decide (rkey row = rkey r))
  · rw [if_neg (by simp [hany])] at hrow
    rcases List.mem_append.mp hrow with hmem | hmem
    · exact absurd (decide_eq_true hkey)
        (by simpa using (List.any_eq_false.mp hany) row hmem)
    · rw [List.mem_singleton.mp hmem]
  · rw [if_pos hany] at hrow
    rcases List.mem_map.mp hrow with ⟨orig, hmem, heq⟩
    by_cases hc : rkey orig = rkey r
    · rw [if_pos hc] at heq
      rw [← heq, rvals_applyVals]
    · rw [if_neg hc] at heq
      exact absurd (heq ▸ hkey) hc

theorem vals_preserved (rs : List FinRecord) (k : String × Int) (v : Option Int × Option Int) :
    ∀ (t : Table), (∀ r' ∈ rs, rkey r' ≠ k) →
    (∀ row ∈ t, rkey row = k → rvals row = v) →
    ∀ row ∈ loadRecords t rs, rkey row = k → rvals row = v := by
  induction rs with
  | nil => intro t _ h0; exact h0
  | cons r rs ih =>
    intro t hks h0
    have hr : rkey r ≠ k := hks r (List.mem_cons_self r rs)
    refine ih (upsert t r) (fun r' h => hks r' (List.mem_cons_of_mem r h)) ?_
    intro row hrow hkey
    unfold upsert at hrow
    cases hany : t.any (fun row => decide (rkey row = rkey r))
    · rw [if_neg (by simp [hany])] at hrow
      rcases List.mem_append.mp hrow with hmem | hmem
      · exact h0 row hmem hkey
      · exact absurd (List.mem_singleton.mp hmem ▸ hkey) hr
    · rw [if_pos hany] at hrow
      rcases List.mem_map.mp hrow with ⟨orig, hmem, heq⟩
      by_cases hc : rkey orig = rkey r
      · exfalso
        apply hr
        rw [← hkey, ← heq, if_pos hc, rkey_applyVals, hc]
      · rw [if_neg hc] at heq
        exact h0 row (heq ▸ hmem) hkey

theorem setVal_id (t : Table) (k : String × Int) (s : FinRecord)
    (h : ∀ row ∈ t, rkey row = k → rvals row = rvals s) : setVal t k s = t := by
  unfold setVal
  have h' : ∀ row ∈ t, (if rkey row = k then applyVals row s else row) = id row := by
    intro row hrow
    simp only [id]
    by_cases hc : rkey row = k
    · rw [if_pos hc, applyVals_self row s (h row hrow hc)]
    · exact if_neg hc
  rw [List.map_congr_left h', List.map_id]

theorem setVal_absorb_load (rs : List FinRecord) (k : String × Int) (s : FinRecord) :
    ∀ (t : Table), (∃ r' ∈ rs, rkey r' = k) →
    loadRecords (setVal t k s) rs = loadRecords t rs := by
  induction rs with
  | nil => intro t h; exact absurd h (by simp)
  | cons r rs ih =>
    intro t h
    show loadRecords (upsert (setVal t k s) r) rs = loadRecords (upsert t r) rs
    by_cases hr : rkey r = k
    · by_cases hmem : k ∈ keys t
      · have hmem' : rkey r ∈ keys (setVal t k s) := by
          rw [keys_setVal, hr]; exact hmem
        rw [upsert_of_mem _ r hmem', upsert_of_mem t r (hr ▸ hmem), hr,
          setVal_setVal]
      · rw [setVal_of_not_mem t k s hmem]
    · have h' : ∃ r' ∈ rs, rkey r' = k := by
        rcases h with ⟨r', hr', hk'⟩
        rcases List.mem_cons.mp hr' with rfl | hr'
        · exact absurd hk' hr
        · exact ⟨r', hr', hk'⟩
      rw [upsert_setVal_comm t r k s (fun he => hr he.symm), ih (upsert t r) h']

/-- Core idempotence of the MERGE semantics: replaying the same record
sequence over the already-merged table leaves it unchanged. -/
theorem loadRecords_idem (rs : List FinRecord) :
    ∀ (t : Table), loadRecords (loadRecords t rs) rs = loadRecords t rs := by
  induction rs with
  | nil => intro t; rfl
  | cons r rs ih =>
    intro t
    show loadRecords (upsert (loadRecords (upsert t r) rs) r) rs
        = loadRecords (upsert t r) rs
    set U := loadRecords (upsert t r) rs with hU
    have hk : rkey r ∈ keys U :=
      mem_keys_loadRecords rs (upsert t r) (rkey r) (mem_keys_upsert_self t r)
    rw [upsert_of_mem U r hk]
    by_cases hdup : ∃ r' ∈ rs, rkey r' = rkey r
    · rw [setVal_absorb_load rs (rkey r) r U hdup, hU, ih (upsert t r)]
    · push_neg at hdup
      have hvals : ∀ row ∈ U, rkey row = rkey r → rvals row = rvals r :=
        vals_preserved rs (rkey r) (rvals r) (upsert t r) hdup (vals_upsert_self t r)
      rw [setVal_id U (rkey r) r hvals, hU, ih (upsert t r)]

theorem lastWith_eq_none (k : String × Int) :
    ∀ (rs : List FinRecord), lastWith rs k = none → ∀ r' ∈ rs, rkey r' ≠ k := by
  intro rs
  induction rs with
  | nil => intro _ r' h; exact absurd h (by simp)
  | cons r rs ih =>
    intro h r' hmem
    unfold lastWith at h
    cases hrec : lastWith rs k with
    | some r'' => rw [hrec] at h; exact absurd h (by simp)
    | none =>
      rw [hrec] at h
      rcases List.mem_cons.mp hmem with rfl | hmem'
      · intro hk
        rw [if_pos hk] at h
        exact absurd h (by simp)
      · exact ih hrec r' hmem'

/-- Last-value-wins: every stored row whose key is `k` carries the
non-key fields of the last input record with key `k`. -/
theorem loadRecords_last_wins (k : String × Int) (r₀ : FinRecord) :
    ∀ (rs : List FinRecord) (t : Table), lastWith rs k = some r₀ →
    ∀ row ∈ loadRecords t rs, rkey row = k → rvals row = rvals r₀ := by
  intro rs
  induction rs with
  | nil => intro t h; exact absurd h (by simp [lastWith])
  | cons r rs ih =>
    intro t h
    unfold lastWith at h
    cases hrec : lastWith rs k with
    | some r' =>
      rw [hrec] at h
      have : r' = r₀ := by injection h
      subst this
      exact ih (upsert t r) hrec
    | none =>
      rw [hrec] at h
      by_cases hk : rkey r = k
      · rw [if_pos hk] at h
        have : r = r₀ := by injection h
        subst this
        show ∀ row ∈ loadRecords (upsert t r) rs, rkey row = k → rvals row = rvals r
        refine vals_preserved rs k (rvals r) (upsert t r) (lastWith_eq_none k rs hrec) ?_
        intro row hrow hkey
        exact vals_upsert_self t r row hrow (hk ▸ hkey)
      · rw [if_neg hk] at h
        exact absurd h (by simp)

theorem rkey_foldl_applyVals (rs : List FinRecord) :
    ∀ (row : FinRecord), rkey (rs.foldl applyVals row) = rkey row := by
  induction rs with
  | nil => intro row; rfl
  | cons r rs ih =>
    intro row
    show rkey (rs.foldl applyVals (applyVals row r)) = rkey row
    rw [ih (applyVals row r), rkey_applyVals]

theorem loadRecords_singleton (rs : List FinRecord) :
    ∀ (row : FinRecord), (∀ r' ∈ rs, rkey r' = rkey row) →
    loadRecords [row] rs = [rs.foldl applyVals row] := by
  induction rs with
  | nil => intro row _; rfl
  | cons r rs ih =>
    intro row hks
    show loadRecords (upsert [row] r) rs = [(r :: rs).foldl applyVals row]
    have hr : rkey r = rkey row := hks r (List.mem_cons_self r rs)
    have hup : upsert [row] r = [applyVals row r] := by
      unfold upsert
      rw [if_pos (by simp [hr.symm])]
      simp [hr.symm]
    rw [hup]
    have hks' : ∀ r' ∈ rs, rkey r' = rkey (applyVals row r) := by
      intro r' h
      rw [rkey_applyVals]
      exact hks r' (List.mem_cons_of_mem r h)
    exact ih (applyVals row r) hks'

/- Batching: the `records[i:i+batch_size]` loop visits the records in
their original concatenated order. -/

theorem chunkAux_flatten (bs : Nat) : ∀ (fuel : Nat) (l : List α), l.length ≤ fuel →
    (chunkAux bs fuel l).flatten = l := by
  intro fuel
  induction fuel with
  | zero =>
    intro l hl
    rw [List.length_eq_zero.mp (Nat.le_zero.mp hl)]
    rfl
  | succ fuel ih =>
    intro l hl
    cases l with
    | nil => rfl
    | cons x xs =>
      rw [chunkAux, List.flatten_cons]
      simp only [List.length_cons] at hl
      rw [ih (xs.drop (bs - 1)) (by simp only [List.length_drop]; omega)]
      rw [List.cons_append, List.take_append_drop]

theorem chunk_flatten (bs : Nat) (l : List α) : (chunk bs l).flatten = l :=
  chunkAux_flatten bs l.length l le_rfl

theorem foldl_upsert_flatten : ∀ (L : List (List FinRecord)) (t : Table),
    L.foldl (fun t b => b.foldl upsert t) t = loadRecords t L.flatten := by
  intro L
  induction L with
  | nil => intro t; rfl
  | cons b L ih =>
    intro t
    show L.foldl (fun t b => b.foldl upsert t) (b.foldl upsert t)
        = loadRecords t ((b :: L).flatten)
    rw [ih (b.foldl upsert t), List.flatten_cons]
    unfold loadRecords
    rw [List.foldl_append]

/-- Always-succeeding batch oracle. -/
def noFail : Nat → Option String := fun _ => none

theorem csvProcessBatches_noFail : ∀ (bs : List (List FinRecord)) (t : Table)
    (batchNum total : Nat),
    csvProcessBatches noFail bs t batchNum total
      = .ok (bs.foldl (fun t b => b.foldl upsert t) t, total + (bs.map List.length).sum) := by
  intro bs
  induction bs with
  | nil => intro t batchNum total; simp [csvProcessBatches]
  | cons b bs ih =>
    intro t batchNum total
    rw [csvProcessBatches]
    show csvProcessBatches noFail bs (b.foldl upsert t) (batchNum + 1) (total + b.length) = _
    rw [ih (b.foldl upsert t) (batchNum + 1) (total + b.length)]
    simp [Nat.add_assoc]

/-- Claim C2: loading an identical record set a second time with the
MERGE-based loader leaves the table state unchanged — the second call
returns exactly the same table (hence the same row count and field
values) and the same processed-record count as the first. -/
theorem c2_merge_load_idempotent (t : Table) (rows : List CsvRow) (batchSize : Nat)
    (t' : Table) (n : Nat)
    (h : load_company_financials noFail t rows batchSize = .ok (t', n)) :
    load_company_financials noFail t' rows batchSize = .ok (t', n) := by
  unfold load_company_financials at h ⊢
  by_cases hrows : rows = []
  · rw [if_pos hrows] at h ⊢
    injection h with h
    injection h with h1 h2
    rw [← h2]
  · rw [if_neg hrows] at h ⊢
    by_cases hrec : csvBuildRecords rows = []
    · rw [if_pos hrec] at h ⊢
      injection h with h
      injection h with h1 h2
      rw [← h2]
    · rw [if_neg hrec] at h ⊢
      rw [csvProcessBatches_noFail] at h ⊢
      rw [foldl_upsert_flatten, chunk_flatten] at h ⊢
      injection h with h
      injection h with h1 h2
      rw [← h1, ← h2, loadRecords_idem]

/-- Witness for C2: loading one Apple record twice gives the same
single-row table and count as loading it once. -/
theorem c2_witness :
    load_company_financials noFail [⟨"Apple", 2023, some 100, none⟩]
      [⟨some "Apple", some 2023, some 100, none⟩] 100
      = .ok ([⟨"Apple", 2023, some 100, none⟩], 1) :=
  c2_merge_load_idempotent [] [⟨some "Apple", some 2023, some 100, none⟩] 100
    [⟨"Apple", 2023, some 100, none⟩] 1 (by rfl)

/-- Claim C3: when several input records share one unique key, every
stored row with that key carries the non-key field values of the last
occurrence in original input order; and a batch of records that all
share key `k`, merged into an empty table, stores exactly one row —
the key together with the last occurrence's values. -/
theorem c3_last_occurrence_wins (t : Table) (rs : List FinRecord)
    (k : String × Int) (r₀ : FinRecord) (h : lastWith rs k = some r₀) :
    (∀ row ∈ loadRecords t rs, rkey row = k → rvals row = rvals r₀) ∧
    (t = [] → (∀ r ∈ rs, rkey r = k) →
      loadRecords t rs = [⟨k.1, k.2, r₀.revenue, r₀.netIncome⟩]) := by
  constructor
  · exact loadRecords_last_wins k r₀ rs t h
  · intro ht hall
    subst ht
    cases rs with
    | nil => exact absurd h (by simp [lastWith])
    | cons r rs =>
      have h1 : loadRecords ([] : Table) (r :: rs) = loadRecords [r] rs := by
        show loadRecords (upsert [] r) rs = loadRecords [r] rs
        rfl
      have hall' : ∀ r' ∈ rs, rkey r' = rkey r := by
        intro r' hmem
        rw [hall r' (List.mem_cons_of_mem r hmem), hall r (List.mem_cons_self r rs)]
      rw [h1, loadRecords_singleton rs r hall']
      set x := rs.foldl applyVals r with hx
      have hkx : rkey x = k := by
        rw [hx, rkey_foldl_applyVals, hall r (List.mem_cons_self r rs)]
      have hvx : rvals x = rvals r₀ := by
        refine loadRecords_last_wins k r₀ (r :: rs) [] h x ?_ hkx
        rw [h1, loadRecords_singleton rs r hall']
        exact List.mem_singleton.mpr rfl
      have hc : x.company = k.1 := congrArg Prod.fst hkx
      have hy : x.year = k.2 := congrArg Prod.snd hkx
      have hr : x.revenue = r₀.revenue := congrArg Prod.fst hvx
      have hn : x.netIncome = r₀.netIncome := congrArg Prod.snd hvx
      have hxeq : x = ⟨k.1, k.2, r₀.revenue, r₀.netIncome⟩ := by
        calc x = ⟨x.company, x.year, x.revenue, x.netIncome⟩ := rfl
        _ = ⟨k.1, k.2, r₀.revenue, r₀.netIncome⟩ := by rw [hc, hy, hr, hn]
      rw [hxeq]

/-- Witness for C3: the spec scenario — loading
`[("Apple",2023,100), ("Apple",2023,150)]` into an empty table stores
exactly the row `("Apple", 2023, 150)`. -/
theorem c3_witness :
    lastWith [⟨"Apple", 2023, some 100, none⟩, ⟨"Apple", 2023, some 150, none⟩]
        ("Apple", 2023) = some ⟨"Apple", 2023, some 150, none⟩ ∧
    loadRecords []
        [⟨"Apple", 2023, some 100, none⟩, ⟨"Apple", 2023, some 150, none⟩]
      = [⟨"Apple", 2023, some 150, none⟩] := by
  refine ⟨by rfl, ?_⟩
  exact (c3_last_occurrence_wins []
    [⟨"Apple", 2023, some 100, none⟩, ⟨"Apple", 2023, some 150, none⟩]
    ("Apple", 2023) ⟨"Apple", 2023, some 150, none⟩ (by rfl)).2 rfl (by decide)

/- ====================================================================
   MySQL INSERT loader: `load_dataframe_to_snowflake`
   from pipeline/mysql_to_snowflake.py
   ==================================================================== -/

/-- One entry of `failed_batches` (lines 193-197). -/
structure MBatchFail where
  batchNum : Nat
  size : Nat
  error : String
deriving DecidableEq, Repr

/-- The per-batch insert loop (lines 170-206): `executemany` per batch
(outcome given by the oracle `errOf`, keyed by `batch_num` starting
at 1); a failing batch is appended to `failed_batches` with its index,
size and error, and the loop continues with the next batch; a
succeeding batch adds its size to `total_inserted`.  Returns
`(total_inserted, failed_batches)`. -/
def runInsertBatches (errOf : Nat → Option String) :
    List (List α) → Nat → Nat → Nat × List MBatchFail
  | [], _, total => (total, [])
  | b :: bs, batchNum, total =>
    match errOf batchNum with
    | some e =>
      let rest := runInsertBatches errOf bs (batchNum + 1) total
      (rest.1, ⟨batchNum, b.length, e⟩ :: rest.2)
    | none => runInsertBatches errOf bs (batchNum + 1) (total + b.length)

/-- End of `load_dataframe_to_snowflake` (lines 208-221): if some batch
failed and no record was inserted, raise; otherwise return with the
failure list attached. -/
def load_dataframe_outcome (errOf : Nat → Option String) (batches : List (List α)) :
    Except String (Nat × List MBatchFail) :=
  let result := runInsertBatches errOf batches 1 0
  if result.2 ≠ [] ∧ result.1 = 0 then .error "All batches failed"
  else .ok result

theorem runInsertBatches_acc_le (errOf : Nat → Option String) :
    ∀ (bs : List (List α)) (n t : Nat), t ≤ (runInsertBatches errOf bs n t).1 := by
  intro bs
  induction bs with
  | nil => intro n t; exact le_rfl
  | cons b bs ih =>
    intro n t
    rw [runInsertBatches]
    cases errOf n with
    | some e => exact ih (n + 1) t
    | none => exact le_trans (Nat.le_add_right t b.length) (ih (n + 1) (t + b.length))

theorem runInsertBatches_batchNums (errOf : Nat → Option String) :
    ∀ (bs : List (List α)) (n t : Nat),
    (runInsertBatches errOf bs n t).2.map MBatchFail.batchNum
      = (List.range' n bs.length).filter (fun i => (errOf i).isSome) := by
  intro bs
  induction bs with
  | nil => intro n t; rfl
  | cons b bs ih =>
    intro n t
    rw [runInsertBatches, List.length_cons, List.range'_succ, List.filter_cons]
    cases he : errOf n with
    | some e => simp [he, ih (n + 1) t]
    | none => simp [he, ih (n + 1) (t + b.length)]

theorem runInsertBatches_errors (errOf : Nat → Option String) :
    ∀ (bs : List (List α)) (n t : Nat),
    ∀ f ∈ (runInsertBatches errOf bs n t).2, errOf f.batchNum = some f.error := by
  intro bs
  induction bs with
  | nil => intro n t f hf; exact absurd hf (by simp [runInsertBatches])
  | cons b bs ih =>
    intro n t f hf
    rw [runInsertBatches] at hf
    cases he : errOf n with
    | some e =>
      rw [he] at hf
      rcases List.mem_cons.mp hf with rfl | hf'
      · exact he
      · exact ih (n + 1) t f hf'
    | none =>
      rw [he] at hf
      exact ih (n + 1) (t + b.length) f hf

theorem runInsertBatches_total_eq (errOf : Nat → Option String) :
    ∀ (bs : List (List α)) (n t : Nat), (∀ b ∈ bs, b ≠ []) →
    ((runInsertBatches errOf bs n t).1 = t ↔
      ∀ i ∈ List.range' n bs.length, (errOf i).isSome) := by
  intro bs
  induction bs with
  | nil => intro n t _; simp [runInsertBatches]
  | cons b bs ih =>
    intro n t hne
    rw [runInsertBatches, List.length_cons, List.range'_succ]
    cases he : errOf n with
    | some e =>
      simp only [he]
      rw [ih (n + 1) t fun b h => hne b (List.mem_cons_of_mem _ h)]
      simp [he]
    | none =>
      simp only [he]
      have hb : 0 < b.length :=
        List.length_pos.mpr (hne b (List.mem_cons_self b bs))
      have hle := runInsertBatches_acc_le errOf bs (n + 1) (t + b.length)
      constructor
      · intro h; omega
      · intro h
        exact absurd (h n (List.mem_cons_self _ _)) (by simp [he])

/-- Claim C5: for a batched load of `M` nonempty batches of which `K`
fail, `load_dataframe_to_snowflake` raises exactly when `K ≥ 1` and no
batch succeeded (`M − K = 0`); otherwise it returns normally with all
`K` failures attached — one entry per failing batch index, in order,
each carrying its error detail — so exactly `M − K` batches succeeded
and no failure is dropped. -/
theorem c5_load_result_accounting (errOf : Nat → Option String)
    (batches : List (List α)) (hne : ∀ b ∈ batches, b ≠ []) :
    ((∃ e, load_dataframe_outcome errOf batches = .error e) ↔
      (1 ≤ ((List.range' 1 batches.length).filter (fun i => (errOf i).isSome)).length ∧
        batches.length
          - ((List.range' 1 batches.length).filter (fun i => (errOf i).isSome)).length = 0))
    ∧ ∀ total failed, load_dataframe_outcome errOf batches = .ok (total, failed) →
        failed.length
            = ((List.range' 1 batches.length).filter (fun i => (errOf i).isSome)).length
          ∧ failed.map MBatchFail.batchNum
            = (List.range' 1 batches.length).filter (fun i => (errOf i).isSome)
          ∧ ∀ f ∈ failed, errOf f.batchNum = some f.error := by
  have hKle : ((List.range' 1 batches.length).filter (fun i => (errOf i).isSome)).length
      ≤ batches.length := by
    calc ((List.range' 1 batches.length).filter (fun i => (errOf i).isSome)).length
        ≤ (List.range' 1 batches.length).length := List.length_filter_le _ _
    _ = batches.length := by simp
  have hnums := runInsertBatches_batchNums errOf batches 1 0
  have herrs := runInsertBatches_errors errOf batches 1 0
  have hKfail : (runInsertBatches errOf batches 1 0).2.length
      = ((List.range' 1 batches.length).filter (fun i => (errOf i).isSome)).length := by
    rw [← hnums, List.length_map]
  have hallfail : ((runInsertBatches errOf batches 1 0).1 = 0 ↔
      ∀ i ∈ List.range' 1 batches.length, (errOf i).isSome) :=
    runInsertBatches_total_eq errOf batches 1 0 hne
  have hfiltlen : ((∀ i ∈ List.range' 1 batches.length, (errOf i).isSome) ↔
      ((List.range' 1 batches.length).filter (fun i => (errOf i).isSome)).length
        = batches.length) := by
    rw [← List.countP_eq_length_filter]
    constructor
    · intro h
      have := List.countP_eq_length.mpr h
      simpa using this
    · intro h
      apply List.countP_eq_length.mp
      simpa using h
  constructor
  · unfold load_dataframe_outcome
    by_cases hcond : (runInsertBatches errOf batches 1 0).2 ≠ []
        ∧ (runInsertBatches errOf batches 1 0).1 = 0
    · rw [if_pos hcond]
      constructor
      · intro _
        have h1 : 1 ≤ (runInsertBatches errOf batches 1 0).2.length :=
          List.length_pos.mpr hcond.1
        have h2 := hfiltlen.mp (hallfail.mp hcond.2)
        omega
      · intro _; exact ⟨"All batches failed", rfl⟩
    · rw [if_neg hcond]
      constructor
      · rintro ⟨e, he⟩; exact absurd he (by simp)
      · rintro ⟨hK1, hKM⟩
        exfalso
        apply hcond
        have hKM' : ((List.range' 1 batches.length).filter
            (fun i => (errOf i).isSome)).length = batches.length := by omega
        refine ⟨?_, hallfail.mpr (hfiltlen.mpr hKM')⟩
        intro hnil
        rw [hnil] at hKfail
        simp at hKfail
        omega
  · intro total failed hok
    unfold load_dataframe_outcome at hok
    by_cases hcond : (runInsertBatches errOf batches 1 0).2 ≠ []
        ∧ (runInsertBatches errOf batches 1 0).1 = 0
    · rw [if_pos hcond] at hok; exact absurd hok (by simp)
    · rw [if_neg hcond] at hok
      injection hok with hok
      have hfail : failed = (runInsertBatches errOf batches 1 0).2 := by
        have := congrArg Prod.snd hok
        exact this.symm
      subst hfail
      exact ⟨hKfail, hnums, herrs⟩

/-- Batch oracle failing exactly batch 2. -/
def failBatchTwo : Nat → Option String := fun n => if n = 2 then some "boom" else none

/-- Witness for C5: three one-row batches with batch 2 failing — the
load returns normally, reporting the single failure with its index and
error, so 2 of 3 batches succeeded. -/
theorem c5_witness :
    load_dataframe_outcome failBatchTwo [[(0 : Nat)], [1], [2]] = .ok (2, [⟨2, 1, "boom"⟩])
    ∧ ([(⟨2, 1, "boom"⟩ : MBatchFail)]).length
        = ((List.range' 1 3).filter (fun i => (failBatchTwo i).isSome)).length
    ∧ ([(⟨2, 1, "boom"⟩ : MBatchFail)]).map MBatchFail.batchNum
        = (List.range' 1 3).filter (fun i => (failBatchTwo i).isSome)
    ∧ ∀ f ∈ [(⟨2, 1, "boom"⟩ : MBatchFail)], failBatchTwo f.batchNum = some f.error := by
  have h := (c5_load_result_accounting failBatchTwo [[(0 : Nat)], [1], [2]]
    (by decide)).2 2 [⟨2, 1, "boom"⟩] (by rfl)
  exact ⟨by rfl, h.1, h.2.1, h.2.2⟩

/-- Batch oracle failing exactly batch 1. -/
def failBatchOne : Nat → Option String := fun n => if n = 1 then some "boom" else none

/-- Counterexample for C4: the claim quantifies over every batched load
of the repository, but the CSV MERGE loader aborts on the first failing
batch instead of recording it and continuing.  With two single-record
batches and batch 1 failing, `load_company_financials_to_snowflake`
re-raises the batch error (result `.error "boom"`): no later batch is
processed and no `(batchIndex, error)` record is returned, while the
MySQL INSERT loader on the same failure pattern continues and reports
`(total_inserted, failed_batches) = (1, [(1, 1, "boom")])`. -/
theorem c4_counterexample_csv_abort :
    load_company_financials failBatchOne []
        [⟨some "Apple", some 2023, some 100, none⟩,
         ⟨some "Samsung", some 2023, some 200, none⟩] 1
      = .error "boom"
    ∧ runInsertBatches failBatchOne [[(0 : Nat)], [1]] 1 0 = (1, [⟨1, 1, "boom"⟩]) := by
  constructor
  · rfl
  · rfl

/-- Claim C4 (amended): in the MySQL INSERT loader a failing batch is
recorded with its index and error and processing continues with every
remaining batch (the failure list enumerates exactly the failing batch
indices over the whole run); in the CSV MERGE loader the first failing
batch re-raises its error and aborts the load, skipping all remaining
batches. -/
theorem c4_batch_failure_handling :
    (∀ (errOf : Nat → Option String) (batches : List (List Nat)),
      (runInsertBatches errOf batches 1 0).2.map MBatchFail.batchNum
        = (List.range' 1 batches.length).filter (fun i => (errOf i).isSome)
      ∧ ∀ f ∈ (runInsertBatches errOf batches 1 0).2, errOf f.batchNum = some f.error)
    ∧ ∀ (errOf : Nat → Option String) (e : String) (batchNum total : Nat)
        (t : Table) (b : List FinRecord) (bs : List (List FinRecord)),
        errOf batchNum = some e →
        csvProcessBatches errOf (b :: bs) t batchNum total = .error e := by
  constructor
  · intro errOf batches
    exact ⟨runInsertBatches_batchNums errOf batches 1 0,
      runInsertBatches_errors errOf batches 1 0⟩
  · intro errOf e batchNum total t b bs he
    rw [csvProcessBatches, he]

/-- Witness for C4 (amended): a concrete aborting CSV batch loop. -/
theorem c4_witness :
    csvProcessBatches failBatchOne
        [[⟨"Apple", 2023, some 100, none⟩], [⟨"Samsung", 2023, some 200, none⟩]] [] 1 0
      = .error "boom" :=
  c4_batch_failure_handling.2 failBatchOne "boom" 1 0 []
    [⟨"Apple", 2023, some 100, none⟩] [[⟨"Samsung", 2023, some 200, none⟩]] rfl

/- ====================================================================
   Multi-table run exit status: `main` in pipeline/mysql_to_snowflake.py
   ==================================================================== -/

/-- Exit status of the two-table section of `main` (lines 336-400),
given how each table's processing ends.  A COUNTRIES failure is caught
at lines 354-358 ("Continuing with next table...") and the run goes on;
a MACRO_INDICATORS failure is re-raised at line 382, reaches the
top-level handler and the process calls `sys.exit(1)`; otherwise `main`
returns normally (exit status 0). -/
def mysqlPipelineExit (countriesRun : Except String Unit)
    (indicatorsRun : Except String Unit) : Nat :=
  match countriesRun with
  | .error _ =>
    match indicatorsRun with
    | .error _ => 1
    | .ok _ => 0
  | .ok _ =>
    match indicatorsRun with
    | .error _ => 1
    | .ok _ => 0

/-- Counterexample for C8: in the run where the COUNTRIES sync
completes and the MACRO_INDICATORS sync fails, one table completed yet
the process exits with status 1, not 0 as the claim requires. -/
theorem c8_counterexample_exit_code :
    mysqlPipelineExit (.ok ()) (.error "load failed") = 1 ∧ (1 : Nat) ≠ 0 := by
  constructor
  · rfl
  · decide

/-- Claim C8 (amended): the exit status of the multi-table run is zero
exactly when the MACRO_INDICATORS sync succeeds — a COUNTRIES failure
alone never makes the exit non-zero, while a MACRO_INDICATORS failure
always does, even when COUNTRIES completed. -/
theorem c8_exit_code_iff (countriesRun indicatorsRun : Except String Unit) :
    mysqlPipelineExit countriesRun indicatorsRun = 0 ↔ indicatorsRun = .ok () := by
  cases countriesRun <;> cases indicatorsRun <;> simp [mysqlPipelineExit]

/- ====================================================================
   Key-column validation: record construction in the two loaders
   ==================================================================== -/

/-- One source row for the MACRO_INDICATORS insert loader; key columns
of the table's unique constraint are `(COUNTRY_CODE, YEAR, INDICATOR)`.
Each cell may be null. -/
structure MRow where
  countryCode : Option String
  year : Option Int
  indicator : Option String
  value : Option Int
  source : Option String
deriving DecidableEq, Repr

/-- The `convert_value` helper (lines 113-140): `pd.isna` becomes None, numpy
scalars become native values — on already-native optional values it is
the identity; it performs no key validation. -/
def convertValue (v : Option β) : Option β := v

/-- Record construction in `load_dataframe_to_snowflake`
(lines 144-152): every DataFrame row is converted and appended — no
row is dropped, whatever its key columns contain. -/
def mysqlBuildRecords (rows : List MRow) : List MRow :=
  rows.map (fun r =>
    ⟨convertValue r.countryCode, convertValue r.year, convertValue r.indicator,
      convertValue r.value, convertValue r.source⟩)

/-- Counterexample for C9: the claim quantifies over both loaders, but
`load_dataframe_to_snowflake` performs no key-column filtering: a row
with a null COUNTRY_CODE key survives record construction and appears
in a batch (here the single batch of a batch-500 partition), instead of
being excluded and counted as dropped. -/
theorem c9_counterexample_mysql_includes_missing_key :
    mysqlBuildRecords [⟨none, some 2020, some "GDP_USD", some 5, some "WorldBank"⟩]
      = [⟨none, some 2020, some "GDP_USD", some 5, some "WorldBank"⟩]
    ∧ chunk 500 (mysqlBuildRecords
        [⟨none, some 2020, some "GDP_USD", some 5, some "WorldBank"⟩])
      = [[⟨none, some 2020, some "GDP_USD", some 5, some "WorldBank"⟩]]
    ∧ (⟨none, some 2020, some "GDP_USD", some 5, some "WorldBank"⟩ : MRow).countryCode
      = none := by
  refine ⟨rfl, rfl, rfl⟩

/-- Claim C9 (amended): in the CSV financials loader every record with
a null COMPANY or YEAR key is excluded before batching (contributing no
record) and is counted exactly once in the dropped count, with the
filter a total function; the MySQL DataFrame loader applies no
key-column filtering — record construction preserves every row,
including rows with missing key values. -/
theorem c9_key_filtering (rows : List CsvRow) (r : CsvRow) (mrows : List MRow)
    (hinv : invalidRow r) :
    csvBuildRecords (r :: rows) = csvBuildRecords rows
    ∧ (csvBuildRecords rows).length + rows.countP (fun r => decide (invalidRow r))
        = rows.length
    ∧ droppedCount rows = rows.countP (fun r => decide (invalidRow r))
    ∧ (mysqlBuildRecords mrows).length = mrows.length := by
  have hnone : ∀ (r' : CsvRow), invalidRow r' →
      (match r'.company, r'.year with
        | some c, some y => some (⟨c, y, r'.revenue, r'.netIncome⟩ : FinRecord)
        | _, _ => none) = none := by
    intro r' hr'
    rcases hr' with h | h
    · rw [h]
    · rw [h]; cases r'.company <;> rfl
  have hlen : (csvBuildRecords rows).length
      = rows.countP (fun r => decide (¬invalidRow r)) := by
    unfold csvBuildRecords
    rw [List.length_filterMap_eq_countP]
    refine List.countP_congr ?_
    intro r' _
    constructor
    · intro h
      refine decide_eq_true fun hr' => ?_
      rw [hnone r' hr'] at h
      exact absurd h (by simp)
    · intro h
      have hr' : ¬invalidRow r' := of_decide_eq_true h
      unfold invalidRow at hr'
      push_neg at hr'
      rcases Option.ne_none_iff_exists'.mp hr'.1 with ⟨c, hc⟩
      rcases Option.ne_none_iff_exists'.mp hr'.2 with ⟨y, hy⟩
      rw [hc, hy]
      simp
  have hsplit : ∀ (l : List CsvRow),
      l.countP (fun r => decide (invalidRow r))
        + l.countP (fun r => decide (¬invalidRow r)) = l.length := by
    intro l
    induction l with
    | nil => rfl
    | cons r' l ih =>
      rw [List.countP_cons, List.countP_cons, List.length_cons]
      by_cases h : invalidRow r'
      · rw [if_pos (decide_eq_true h), if_neg (by simp [h])]
        omega
      · rw [if_neg (by simp [h]), if_pos (decide_eq_true h)]
        omega
  refine ⟨?_, ?_, ?_, by simp [mysqlBuildRecords]⟩
  · unfold csvBuildRecords
    rw [List.filterMap_cons]
    rw [hnone r hinv]
  · rw [hlen]
    have := hsplit rows
    omega
  · unfold droppedCount
    rw [hlen]
    have := hsplit rows
    omega

/-- Witness for C9 (amended) at a concrete invalid row: a CSV row with
a null YEAR is excluded and counted once, and the MySQL record builder
keeps its single (key-less) row. -/
theorem c9_witness :
    csvBuildRecords [⟨some "Apple", none, some 100, none⟩,
        ⟨some "Apple", some 2023, some 100, none⟩]
      = csvBuildRecords [⟨some "Apple", some 2023, some 100, none⟩]
    ∧ droppedCount [⟨some "Apple", some 2023, some 100, none⟩]
        = List.countP (fun r => decide (invalidRow r))
            [(⟨some "Apple", some 2023, some 100, none⟩ : CsvRow)]
    ∧ (mysqlBuildRecords [⟨none, none, none, none, none⟩]).length
        = [(⟨none, none, none, none, none⟩ : MRow)].length := by
  have h := c9_key_filtering [⟨some "Apple", some 2023, some 100, none⟩]
    ⟨some "Apple", none, some 100, none⟩ [⟨none, none, none, none, none⟩]
    (Or.inr rfl)
  exact ⟨h.1, h.2.2.1, h.2.2.2⟩

/- ====================================================================
   Forecast persistence: `save_forecasts` in forecasting/run_forecasts.py
   ==================================================================== -/

/-- One row of the `forecasts` table / one forecast dictionary. -/
structure Forecast where
  entityType : String
  entityName : String
  year : Int
  forecastValue : Int
  modelUsed : String
deriving DecidableEq, Repr

/-- The body of `save_forecasts(engine, forecasts)` (lines 139-173): early return on
an empty list, otherwise a plain `INSERT INTO forecasts ...`
`executemany` that appends one row per forecast, with no key matching
and no update clause. -/
def save_forecasts (table : List Forecast) (forecasts : List Forecast) : List Forecast :=
  if forecasts = [] then table
  else table ++ forecasts

/-- Iterating `n` successive runs of `save_forecasts` with the same forecast list. -/
def saveForecastsIter : Nat → List Forecast → List Forecast → List Forecast
  | 0, table, _ => table
  | n + 1, table, fs => save_forecasts (saveForecastsIter n table fs) fs

theorem flatten_replicate_comm (fs : List α) :
    ∀ (n : Nat), (List.replicate n fs).flatten ++ fs = fs ++ (List.replicate n fs).flatten := by
  intro n
  induction n with
  | zero => simp
  | succ n ih =>
    rw [List.replicate_succ, List.flatten_cons, List.append_assoc, ih,
      ← List.append_assoc]

/-- Claim C10: `save_forecasts` appends every forecast with a plain
insert and never updates an existing row — each run grows the table by
the length of the forecast list, the previously stored rows are
preserved unchanged as a prefix, and `n` runs with the same list store
`n` copies of it. -/
theorem c10_save_forecasts_appends (t fs : List Forecast) (n : Nat) :
    saveForecastsIter n t fs = t ++ (List.replicate n fs).flatten
    ∧ (saveForecastsIter n t fs).length = t.length + n * fs.length
    ∧ (save_forecasts t fs).take t.length = t := by
  have hsave : ∀ u : List Forecast, save_forecasts u fs = u ++ fs := by
    intro u
    unfold save_forecasts
    by_cases hfs : fs = []
    · rw [if_pos hfs, hfs, List.append_nil]
    · rw [if_neg hfs]
  have hiter : ∀ m : Nat, saveForecastsIter m t fs = t ++ (List.replicate m fs).flatten := by
    intro m
    induction m with
    | zero => simp [saveForecastsIter]
    | succ m ih =>
      rw [saveForecastsIter, hsave, ih, List.replicate_succ, List.flatten_cons,
        List.append_assoc, flatten_replicate_comm]
  refine ⟨hiter n, ?_, ?_⟩
  · rw [hiter n]
    simp [Nat.mul_comm]
  · rw [hsave t]
    exact List.take_left t fs

end SIP
